import Mathlib

/-!
Verification development for the AI implementation assistant
(`src/ai_assistant.py`).

The program is a glue application between a chat interface, the Asana
task-tracking service and an LLM inference provider.  Its pure logic —
phase parsing from the knowledge blob, task-status aggregation, the task
enrichment batch, bulk reassignment and the advisory query — is embedded
below as executable Lean definitions.  External HTTP interactions are
modelled by explicit oracle values: a fetch is an `Except ExtErr` value,
an inference call is a `CallResult`, a patch call is recorded in the
output so that theorems can speak about which calls were issued.

Modelling conventions:
* Python strings are `List Char`; `x in s` is `containsStr`,
  `s.startswith` is `leadsWith`, `s.strip()` is `pyStrip`, `s.lower()`
  is `toLowerStr` (ASCII case folding; the claims only involve ASCII).
* Python `round(x, 1)` on the exact rational value is `round1`, using
  Mathlib's `round` (round-half-up).  CPython rounds the nearest binary
  float with half-to-even ties; the two agree except on exact `.x5`
  ties, on which no claim depends.
* Python dicts keyed by strings are association lists; assignment is
  `dictInsert`, which overwrites in place (preserving first-insertion
  order, as Python dicts do) or appends a fresh key.
-/

/-! ### String helpers (Python `str` operations over `List Char`) -/

/-- Python's `\s` / `str.strip` whitespace set (ASCII part). -/
def isSpacePy (c : Char) : Bool :=
  c == ' ' || c == '\t' || c == '\n' || c == '\r' || c == '\x0b' || c == '\x0c'

/-- Python `haystack.startswith(needle)`. -/
def leadsWith : List Char → List Char → Bool
  | [], _ => true
  | _ :: _, [] => false
  | a :: as, b :: bs => a == b && leadsWith as bs

/-- Python `needle in haystack` (contiguous substring test). -/
def containsStr (needle : List Char) (hay : List Char) : Bool :=
  match hay with
  | [] => needle.isEmpty
  | c :: rest => leadsWith needle (c :: rest) || containsStr needle rest

/-- Python `s.lower()` (ASCII case folding). -/
def toLowerStr (s : List Char) : List Char := s.map Char.toLower

/-- Python `s.strip()`: drop leading and trailing whitespace. -/
def pyStrip (s : List Char) : List Char :=
  ((s.dropWhile isSpacePy).reverse.dropWhile isSpacePy).reverse

/-- Python lexicographic `<` on strings (by code point), as used for the
`due_on < today` comparison of ISO dates. -/
def strLt : List Char → List Char → Bool
  | [], [] => false
  | [], _ :: _ => true
  | _ :: _, [] => false
  | a :: as, b :: bs => if a < b then true else if b < a then false else strLt as bs

/-- Python `round(q, 1)` on the exact rational value of `q`
(see the fidelity note in the module docstring). -/
def round1 (q : ℚ) : ℚ := (round (q * 10) : ℤ) / 10

/-! ### Data model -/

/-- A task record as fetched from the tracking service
(`opt_fields: name,notes,completed,gid,due_on,assignee.name`).
`assignee = none` models a missing/None assignee; `due_on = none` a
missing due date (the code also treats an empty-string `due_on` as
falsy, hence the explicit emptiness checks below). -/
structure ATask where
  gid : List Char
  name : List Char
  notes : List Char
  completed : Bool
  due_on : Option (List Char)
  assignee : Option (List Char)
deriving DecidableEq, Repr

/-- An error raised by an external call (network failure or a
non-success HTTP status surfaced as an exception by a client library). -/
inductive ExtErr where
  | network
  | httpStatus (code : Nat)
deriving DecidableEq, Repr

/-- A phase record of `IMPLEMENTATION_PHASES`. -/
structure PhaseRecord where
  name : List Char
  description : List Char
  key_activities : List (List Char)
  deliverables : List (List Char)
deriving DecidableEq, Repr

/-- Python dict assignment `d[k] = v` on an association list: overwrite
in place if the key is present, else append (insertion order kept). -/
def dictInsert {α : Type} (k : List Char) (v : α) :
    List (List Char × α) → List (List Char × α)
  | [] => [(k, v)]
  | (k', v') :: rest =>
    if k' = k then (k, v) :: rest else (k', v') :: dictInsert k v rest

/-- Python dict lookup `d[k]` on an association list. -/
def alookup {α : Type} (k : List Char) : List (List Char × α) → Option α
  | [] => none
  | (k', v) :: rest => if k' = k then some v else alookup k rest

/-! ### Phase-record parser

The source compiles `re.compile(r"PHASE (\d+): (.*?)\s*\(([^)]+)\)")`
and runs `findall` over the knowledge blob.  The pattern is embedded
directly: literal `PHASE `, greedy digits (group 1), literal `: `, a
lazy run of non-newline characters (group 2), greedy whitespace, `(`,
a nonempty greedy run of non-`)` characters (group 3), `)`.  For this
pattern the backtracking behaviour degenerates: the digit run, the
whitespace run and the non-`)` run are forced maximal (each is followed
by a literal outside its character class), and the lazy group takes the
least length at which the rest matches. -/

/-- Match `\s*\(([^)]+)\)` at the head of `s`; on success return
(group 3, remaining input). -/
def matchParen (s : List Char) : Option (List Char × List Char) :=
  match s.dropWhile isSpacePy with
  | '(' :: s2 =>
    let g3 := s2.takeWhile (fun c => c != ')')
    match s2.dropWhile (fun c => c != ')') with
    | ')' :: s4 => if g3.isEmpty then none else some (g3, s4)
    | _ => none
  | _ => none

/-- Match `(.*?)\s*\(([^)]+)\)` at the head of `s`; `acc` holds the
(reversed) characters the lazy group has consumed so far.  Tries the
tail pattern first (shortest lazy match wins), then extends the lazy
group by one non-newline character. -/
def matchBody (acc : List Char) : List Char → Option (List Char × List Char × List Char)
  | [] =>
    match matchParen [] with
    | some (g3, rest) => some (acc.reverse, g3, rest)
    | none => none
  | c :: s' =>
    match matchParen (c :: s') with
    | some (g3, rest) => some (acc.reverse, g3, rest)
    | none => if c == '\n' then none else matchBody (c :: acc) s'

/-- Match the whole phase pattern at the head of `s`; on success return
((group 1, group 2, group 3), remaining input). -/
def matchPhaseAt (s : List Char) :
    Option ((List Char × List Char × List Char) × List Char) :=
  match s with
  | 'P' :: 'H' :: 'A' :: 'S' :: 'E' :: ' ' :: s1 =>
    let num := s1.takeWhile Char.isDigit
    if num.isEmpty then none
    else
      match s1.dropWhile Char.isDigit with
      | ':' :: ' ' :: s3 =>
        match matchBody [] s3 with
        | some (g2, g3, rest) => some ((num, g2, g3), rest)
        | none => none
      | _ => none
  | _ => none

/-- Scan for non-overlapping matches left to right, as `re.findall`
does.  `skip` counts positions still inside the previous match: after a
match of length `L` at the current position, scanning resumes `L`
characters further on. -/
def goFind : List Char → Nat → List (List Char × List Char × List Char)
  | [], _ => []
  | _ :: rest, n + 1 => goFind rest n
  | c :: rest, 0 =>
    match matchPhaseAt (c :: rest) with
    | some (g, restM) => g :: goFind rest ((c :: rest).length - restM.length - 1)
    | none => goFind rest 0

/-- `re.findall(phase_pattern, blob)`: the list of (number, name,
timeline) capture triples, in order of occurrence. -/
def findallPhases (s : List Char) : List (List Char × List Char × List Char) :=
  goFind s 0

/-- The display name `f"{phase_name} ({timeline})"`. -/
def phaseName (nm tl : List Char) : List Char :=
  nm ++ " (".toList ++ tl ++ [')']

/-- The record stored for one match: display name plus empty
description / key-activities / deliverables. -/
def mkPhaseRecord (nm tl : List Char) : PhaseRecord :=
  ⟨phaseName nm tl, [], [], []⟩

/-- The `for phase_num, phase_name, timeline in matches` loop filling
the `IMPLEMENTATION_PHASES` dict. -/
def buildPhases (ms : List (List Char × List Char × List Char)) :
    List (List Char × PhaseRecord) :=
  ms.foldl (fun acc m => dictInsert m.1 (mkPhaseRecord m.2.1 m.2.2) acc) []

/-- `IMPLEMENTATION_PHASES` as a function of the knowledge blob. -/
def IMPLEMENTATION_PHASES (blob : List Char) : List (List Char × PhaseRecord) :=
  buildPhases (findallPhases blob)

/-- The last capture triple whose captured number is `k` (the match
whose record survives the dict overwrites). -/
def lastFor (k : List Char) (ms : List (List Char × List Char × List Char)) :
    Option (List Char × List Char × List Char) :=
  ms.reverse.find? (fun m => decide (m.1 = k))

/-! ### Advisory query component (`AIAssistant.ask_question`)

The HTTP exchange with the inference provider is abstracted by a
`CallResult` oracle: either a response arrived, carrying its status
code and (for 200) the `choices[0].message.content` text, or the call
raised (transport error, or a parse error on the response body). -/

/-- Outcome of one inference-provider call. -/
inductive CallResult where
  | response (status : Nat) (content : List Char)
  | exn
deriving DecidableEq, Repr

/-- `AIAssistant.ask_question`: on a 200 response return the stripped
content; on any other status print a diagnostic and return `None`; on
an exception print a diagnostic and return `None`. -/
def ask_question (call : CallResult) : Option (List Char) :=
  match call with
  | .response status content =>
    if status == 200 then some (pyStrip content) else none
  | .exn => none

/-! ### ATask enrichment component (`AIAssistant.enrich_task_descriptions`) -/

/-- The marker string tested by the skip condition. -/
def descMarker : List Char := "TASK DESCRIPTION".toList

/-- The skip test: `len(existing_notes) > 200 and
"TASK DESCRIPTION" in existing_notes`. -/
def skipCond (t : ATask) : Bool :=
  decide (200 < t.notes.length) && containsStr descMarker t.notes

/-- The formatted block written into the task's notes (the triple-quoted
f-string, including its leading newline and the 24 spaces of closing
indentation). -/
def formattedDescription (asst today desc taskName : List Char) : List Char :=
  "\n# TASK DESCRIPTION\nGenerated by ".toList ++ asst ++ " on ".toList ++ today
    ++ "\n\n".toList ++ desc ++ "\n\n---\nOriginal task: ".toList ++ taskName
    ++ "\n".toList ++ List.replicate 24 ' '

/-- What happened to one task inside the enrichment loop.  `updated`
carries the new notes written to the tracking service; `httpFailed` is
a non-200 provider response (counted failed, and still counted
processed); `exnFailed` is an exception caught by the per-task handler
(counted failed, not processed). -/
inductive TaskStep where
  | skipped
  | updated (newNotes : List Char)
  | httpFailed (status : Nat)
  | exnFailed
deriving DecidableEq, Repr

/-- The `results` counter dict of the enrichment loop. -/
structure EnrichResults where
  processed : Nat
  updated : Nat
  skipped : Nat
  failed : Nat
deriving DecidableEq, Repr

/-- External behaviour during one loop iteration: the provider call's
outcome and whether the subsequent `update_task` patch succeeds. -/
structure EnrichOracle where
  llm : CallResult
  updateOk : Bool
deriving DecidableEq, Repr

/-- One iteration of the enrichment loop body on task `t`. -/
def processTask (asst today : List Char) (t : ATask) (o : EnrichOracle) : TaskStep :=
  if skipCond t then .skipped
  else
    match o.llm with
    | .response status content =>
      if status == 200 then
        let desc := pyStrip content
        let fd := formattedDescription asst today desc t.name
        let newNotes := if t.notes.isEmpty then fd else t.notes ++ "\n\n".toList ++ fd
        if o.updateOk then .updated newNotes else .exnFailed
      else .httpFailed status
    | .exn => .exnFailed

/-- Counter updates of one iteration, mirroring the branch structure of
the loop (`skipped+=1` / `updated+=1; processed+=1` /
`failed+=1; processed+=1` / `failed+=1`). -/
def tallyStep (r : EnrichResults) : TaskStep → EnrichResults
  | .skipped => ⟨r.processed, r.updated, r.skipped + 1, r.failed⟩
  | .updated _ => ⟨r.processed + 1, r.updated + 1, r.skipped, r.failed⟩
  | .httpFailed _ => ⟨r.processed + 1, r.updated, r.skipped, r.failed + 1⟩
  | .exnFailed => ⟨r.processed, r.updated, r.skipped, r.failed + 1⟩

/-- The patch calls issued for one step: only an `updated` step patches
the task's notes. -/
def stepUpdate (t : ATask) : TaskStep → List (List Char × List Char)
  | .updated n => [(t.gid, n)]
  | _ => []

/-- ATask selection: filter to incomplete tasks, then
`incomplete_tasks[:limit] if limit else incomplete_tasks` — note that a
limit of `0` is falsy in Python and therefore selects all tasks. -/
def enrichSelect (limit : Option Nat) (tasks : List ATask) : List ATask :=
  let incomplete := tasks.filter (fun t => !t.completed)
  match limit with
  | none => incomplete
  | some n => if n == 0 then incomplete else incomplete.take n

/-- Everything observable about one enrichment run: `retVal` is the
value the Python function returns to its caller (it has no `return`
statement, hence always `none`); `results` is the counter dict printed
in the final summary (`none` when the task fetch raised and the
counters were never created); `steps` is the per-task trace, from which
the issued patch calls are derived. -/
structure EnrichOutcome where
  retVal : Option EnrichResults
  results : Option EnrichResults
  steps : List (ATask × TaskStep)
deriving DecidableEq, Repr

/-- `AIAssistant.enrich_task_descriptions`: fetch the project's tasks,
select incomplete ones up to the (truthy) limit, run the loop body on
each with its oracle, and print a summary.  The function body ends
without a `return`, so the caller receives `None`. -/
def enrich_task_descriptions (asst today : List Char) (limit : Option Nat)
    (fetch : Except ExtErr (List ATask)) (oracle : Nat → EnrichOracle) :
    EnrichOutcome :=
  match fetch with
  | .error _ => ⟨none, none, []⟩
  | .ok tasks =>
    let toProcess := enrichSelect limit tasks
    let steps := toProcess.enum.map (fun p => (p.2, processTask asst today p.2 (oracle p.1)))
    let results := steps.foldl (fun r p => tallyStep r p.2) ⟨0, 0, 0, 0⟩
    ⟨none, some results, steps⟩

/-- Discriminator: the step wrote an update. -/
def isStepUpdated : TaskStep → Bool
  | .updated _ => true
  | _ => false

/-- Discriminator: the step was skipped. -/
def isStepSkipped : TaskStep → Bool
  | .skipped => true
  | _ => false

/-- Discriminator: the step hit a non-200 provider response. -/
def isStepHttp : TaskStep → Bool
  | .httpFailed _ => true
  | _ => false

/-- Discriminator: the step raised and was caught per-task. -/
def isStepExn : TaskStep → Bool
  | .exnFailed => true
  | _ => false

/-! ### Upcoming-tasks query (`AIAssistant.get_upcoming_tasks`) -/

/-- `AIAssistant.get_upcoming_tasks`: the fetch (with its server-side
due-date window) either raises — caught, logged, `[]` returned — or
yields tasks, of which the completed ones are filtered out. -/
def get_upcoming_tasks (fetch : Except ExtErr (List ATask)) : List ATask :=
  match fetch with
  | .error _ => []
  | .ok tasks => tasks.filter (fun t => !t.completed)

/-! ### Status aggregation component (`AIAssistant.get_task_status`) -/

/-- A phase bucket while being filled (`{'total': …, 'completed': …}`). -/
structure Bucket0 where
  total : Nat
  completed : Nat
deriving DecidableEq, Repr

/-- A phase bucket after the percentage pass. -/
structure PhaseBucket where
  total : Nat
  completed : Nat
  percentage : ℚ
deriving DecidableEq, Repr

/-- The aggregate returned by `get_task_status`. -/
structure TaskStatus where
  total : Nat
  completed : Nat
  incomplete : Nat
  unassigned : Nat
  overdue : Nat
  percentage : ℚ
  phases : List (List Char × PhaseBucket)
deriving DecidableEq, Repr

/-- The marker `f"PHASE {phase_num}:"`. -/
def phaseMarker (k : List Char) : List Char :=
  "PHASE ".toList ++ k ++ [':']

/-- The inner loop over `IMPLEMENTATION_PHASES.keys()` with `break`:
the first key whose marker occurs in the task name (the redundant
`or name.startswith(...)` of the source is kept). -/
def taskPhase (keys : List (List Char)) (name : List Char) : Option (List Char) :=
  keys.find? (fun k => containsStr (phaseMarker k) name || leadsWith (phaseMarker k) name)

/-- One iteration of the bucketing loop: create the bucket if absent,
then increment its total and (if the task is completed) its completed
count. -/
def bucketStep (keys : List (List Char)) (acc : List (List Char × Bucket0))
    (t : ATask) : List (List Char × Bucket0) :=
  match taskPhase keys t.name with
  | none => acc
  | some k =>
    let cur := (alookup k acc).getD ⟨0, 0⟩
    dictInsert k ⟨cur.total + 1, cur.completed + (if t.completed then 1 else 0)⟩ acc

/-- The `phases` dict after the bucketing loop. -/
def bucketTasks (keys : List (List Char)) (tasks : List ATask) :
    List (List Char × Bucket0) :=
  tasks.foldl (bucketStep keys) []

/-- The percentage pass over the buckets
(`round((completed/total)*100, 1)` when `total > 0`, else `0`). -/
def addPct (bs : List (List Char × Bucket0)) : List (List Char × PhaseBucket) :=
  bs.map (fun p =>
    (p.1, ⟨p.2.total, p.2.completed,
      if p.2.total > 0 then round1 ((p.2.completed : ℚ) / p.2.total * 100) else 0⟩))

/-- `AIAssistant.get_task_status`: on a fetch error return `None`;
otherwise count totals, bucket tasks into phases by the first matching
phase marker, and compute the percentages. -/
def get_task_status (phases : List (List Char × PhaseRecord)) (today : List Char)
    (fetch : Except ExtErr (List ATask)) : Option TaskStatus :=
  match fetch with
  | .error _ => none
  | .ok tasks =>
    let total := tasks.length
    let completed := tasks.countP (fun t => t.completed)
    let incomplete := total - completed
    let unassigned := tasks.countP (fun t => !t.completed && t.assignee.isNone)
    let overdue := tasks.countP (fun t => !t.completed &&
      (match t.due_on with
       | some d => !d.isEmpty && strLt d today
       | none => false))
    let keys := phases.map Prod.fst
    let buckets := addPct (bucketTasks keys tasks)
    let percentage := if total > 0 then round1 ((completed : ℚ) / total * 100) else 0
    some ⟨total, completed, incomplete, unassigned, overdue, percentage, buckets⟩

/-- Specification-side count (following the claim's words): the number
of tasks whose first matching phase, in key order, is `k`. -/
def specPhaseTotal (keys : List (List Char)) (k : List Char)
    (tasks : List ATask) : Nat :=
  tasks.countP (fun t => decide (taskPhase keys t.name = some k))

/-- Specification-side count: as `specPhaseTotal`, restricted to
completed tasks. -/
def specPhaseCompleted (keys : List (List Char)) (k : List Char)
    (tasks : List ATask) : Nat :=
  tasks.countP (fun t => decide (taskPhase keys t.name = some k) && t.completed)

/-- The bucket the code produces for a phase with `t` total and `c`
completed tasks. -/
def mkPB (t c : Nat) : PhaseBucket :=
  ⟨t, c, if t > 0 then round1 ((c : ℚ) / t * 100) else 0⟩

/-! ### Bulk reassignment component (`AIAssistant.bulk_assign_tasks`) -/

/-- A user record from the tracking service. -/
structure User where
  gid : List Char
  name : List Char
deriving DecidableEq, Repr

/-- One entry of the result's `tasks` list (`error` present only on the
failure path). -/
structure AssignEntry where
  id : List Char
  name : List Char
  error : Option (List Char)
deriving DecidableEq, Repr

/-- The result dict of `bulk_assign_tasks`. -/
structure AssignResult where
  success : Nat
  failed : Nat
  tasks : List AssignEntry
deriving DecidableEq, Repr

/-- The user-resolution loop: the gid of the first user whose lowercase
name contains the lowercase assignee string. -/
def findAssignee (users : List User) (assignee : List Char) : Option (List Char) :=
  match users with
  | [] => none
  | u :: rest =>
    if containsStr (toLowerStr assignee) (toLowerStr u.name) then some u.gid
    else findAssignee rest assignee

/-- The body of `bulk_assign_tasks` once the user list is in hand.
`patchRes i` is the outcome of the patch call for the `i`-th task
(`none` = success, `some msg` = the exception's message).  Returns the
result dict together with the list of attempted patch calls
`(task gid, assignee gid, due_on)`. -/
def bulkCore (users : List User) (tasks : List ATask) (assignee : List Char)
    (due_on : Option (List Char)) (patchRes : Nat → Option (List Char)) :
    AssignResult × List (List Char × List Char × Option (List Char)) :=
  match findAssignee users assignee with
  | none => (⟨0, 0, []⟩, [])
  | some gid =>
    if gid.isEmpty then (⟨0, 0, []⟩, [])
    else
      tasks.enum.foldl
        (fun acc p =>
          match patchRes p.1 with
          | none =>
            (⟨acc.1.success + 1, acc.1.failed,
              acc.1.tasks ++ [⟨p.2.gid, p.2.name, none⟩]⟩,
             acc.2 ++ [(p.2.gid, gid, due_on)])
          | some msg =>
            (⟨acc.1.success, acc.1.failed + 1,
              acc.1.tasks ++ [⟨p.2.gid, p.2.name, some msg⟩]⟩,
             acc.2 ++ [(p.2.gid, gid, due_on)]))
        (⟨0, 0, []⟩, [])

/-- `AIAssistant.bulk_assign_tasks`: the user-list fetch
`list(asana_client.users.find_all())` is **not** wrapped in a
try/except, so an error raised there propagates to the caller — hence
the `Except` result. -/
def bulk_assign_tasks (usersFetch : Except ExtErr (List User)) (tasks : List ATask)
    (assignee : List Char) (due_on : Option (List Char))
    (patchRes : Nat → Option (List Char)) :
    Except ExtErr (AssignResult × List (List Char × List Char × Option (List Char))) :=
  match usersFetch with
  | .error e => .error e
  | .ok users => .ok (bulkCore users tasks assignee due_on patchRes)

/-! ### Concrete instances used by witnesses and counterexamples -/

/-- A minimal task constructor for examples. -/
def mkTask (nm : List Char) (c : Bool) : ATask :=
  ⟨"100".toList, nm, [], c, none, none⟩

/-- A concrete date. -/
def d0 : List Char := "2026-01-01".toList

/-- A concrete assistant display name. -/
def a0 : List Char := "AI Assistant".toList

/-- A concrete oracle: every provider call succeeds, every patch
succeeds. -/
def or0 : Nat → EnrichOracle := fun _ => ⟨.response 200 "desc".toList, true⟩

/-- A concrete incomplete task. -/
def t0 : ATask := mkTask "write docs".toList false

/-- Ten tasks, four of them completed. -/
def tasks10 : List ATask :=
  [mkTask "t1".toList true, mkTask "t2".toList true, mkTask "t3".toList true,
   mkTask "t4".toList true, mkTask "t5".toList false, mkTask "t6".toList false,
   mkTask "t7".toList false, mkTask "t8".toList false, mkTask "t9".toList false,
   mkTask "t10".toList false]

/-- The status record `get_task_status` produces on `tasks10`. -/
def st10 : TaskStatus := ⟨10, 4, 6, 6, 0, 40, []⟩

/-- A phase table with the single phase `2`. -/
def phases2 : List (List Char × PhaseRecord) :=
  [("2".toList, mkPhaseRecord "Build".toList "Week 3-4".toList)]

/-- Five tasks named with the `PHASE 2:` marker, three completed. -/
def tasks5 : List ATask :=
  [mkTask "PHASE 2: s1".toList true, mkTask "PHASE 2: s2".toList true,
   mkTask "PHASE 2: s3".toList true, mkTask "PHASE 2: s4".toList false,
   mkTask "PHASE 2: s5".toList false]

/-- The status record `get_task_status` produces on `tasks5` with
`phases2`. -/
def st2 : TaskStatus :=
  ⟨5, 3, 2, 2, 0, 60, [("2".toList, ⟨5, 3, 60⟩)]⟩

/-- A knowledge blob with three phase headings, two sharing number 1. -/
def blob2 : List Char :=
  ("PHASE 1: Setup (Week 1-2)\nsome text\nPHASE 2: Build (Week 3-4)\n"
    ++ "PHASE 1: Redo (Week 9)").toList

/-- The record the duplicate-numbered heading leaves for phase 1. -/
def rec1 : PhaseRecord := mkPhaseRecord "Redo".toList "Week 9".toList

/-- A task whose notes exceed 200 characters and contain the marker. -/
def tSkip : ATask :=
  ⟨"7".toList, "n".toList, descMarker ++ List.replicate 185 'x', false, none, none⟩

/-- A task with empty notes (so the skip condition is false). -/
def t429 : ATask := mkTask "x".toList false

/-- An oracle answering with HTTP status 429. -/
def o429 : EnrichOracle := ⟨.response 429 "quota".toList, true⟩

/-- Zeroed enrichment counters. -/
def r0 : EnrichResults := ⟨0, 0, 0, 0⟩

/-- A single-user list not matching the assignee "bob". -/
def usersA : List User := [⟨"11".toList, "Alice".toList⟩]

/-- A patch oracle where every patch succeeds. -/
def patch0 : Nat → Option (List Char) := fun _ => none

/-! ### Helper lemmas -/

/-- Counter fold characterization: folding `tallyStep` over a step list
adds, per counter, the number of steps of the corresponding kinds. -/
theorem tally_foldl (steps : List (ATask × TaskStep)) (r : EnrichResults) :
    steps.foldl (fun r p => tallyStep r p.2) r =
      ⟨r.processed + steps.countP (fun p => isStepUpdated p.2 || isStepHttp p.2),
       r.updated + steps.countP (fun p => isStepUpdated p.2),
       r.skipped + steps.countP (fun p => isStepSkipped p.2),
       r.failed + steps.countP (fun p => isStepHttp p.2 || isStepExn p.2)⟩ := by
  induction steps generalizing r with
  | nil => simp
  | cons p rest ih =>
    obtain ⟨t, s⟩ := p
    rw [List.foldl_cons, ih]
    cases s <;>
      simp [tallyStep, isStepUpdated, isStepHttp, isStepSkipped, isStepExn,
        List.countP_cons] <;> omega

/-- Mapping first components over the enrichment step trace recovers the
selected tasks. -/
theorem steps_map_fst (l : List ATask) (g : Nat × ATask → TaskStep) :
    ((l.enum.map (fun p => (p.2, g p))).map Prod.fst) = l := by
  rw [List.map_map]
  have : (Prod.fst ∘ fun p : Nat × ATask => (p.2, g p)) = Prod.snd := rfl
  rw [this, List.enum_map_snd]

/-! ### C1 — status aggregation totals -/

/-- C1: for every fetched task list, status aggregation returns
`total` = number of tasks, `completed` = number of tasks whose
completion flag is set, `incomplete = total - completed`, and overall
`percentage` = completed/total × 100 rounded to one decimal, with
percentage 0 when total is 0. -/
theorem c1_status_aggregation (phases : List (List Char × PhaseRecord))
    (today : List Char) (tasks : List ATask) (st : TaskStatus)
    (h : get_task_status phases today (.ok tasks) = some st) :
    st.total = tasks.length ∧
    st.completed = tasks.countP (fun t => t.completed) ∧
    st.incomplete = st.total - st.completed ∧
    st.percentage =
      (if st.total = 0 then 0
       else round1 ((st.completed : ℚ) / st.total * 100)) := by
  simp only [get_task_status, Option.some.injEq] at h
  subst h
  refine ⟨rfl, rfl, rfl, ?_⟩
  by_cases h0 : tasks.length = 0 <;>
    simp [h0, Nat.pos_of_ne_zero]

/-- Concrete evaluation of the status aggregation on `tasks10`. -/
theorem status_tasks10 : get_task_status [] d0 (.ok tasks10) = some st10 := by
  simp only [get_task_status, st10, Option.some.injEq, TaskStatus.mk.injEq]
  refine ⟨by decide, by decide, by decide, by decide, by decide, ?_, by decide⟩
  have h1 : tasks10.countP (fun t => t.completed) = 4 := by decide
  have h2 : tasks10.length = 10 := by decide
  rw [h1, h2]
  norm_num [round1, round_eq]

/-- C1 witness: ten tasks, four completed, yield
completed 4, incomplete 6, percentage 40.0. -/
theorem c1_witness :
    (st10.total = tasks10.length ∧
     st10.completed = tasks10.countP (fun t => t.completed) ∧
     st10.incomplete = st10.total - st10.completed ∧
     st10.percentage =
       (if st10.total = 0 then 0
        else round1 ((st10.completed : ℚ) / st10.total * 100))) ∧
    (st10.completed = 4 ∧ st10.incomplete = 6 ∧ st10.percentage = 40) :=
  ⟨c1_status_aggregation [] d0 tasks10 st10 status_tasks10, ⟨rfl, rfl, rfl⟩⟩

/-! ### C3 — enrichment returns no counts to its caller -/

/-- C3 counterexample: the enrichment operation computes its counter
dict (`results = some ⟨0,0,0,0⟩` here) but, having no `return`
statement, hands `None` back to its caller rather than the counts. -/
theorem c3_counterexample :
    (enrich_task_descriptions a0 d0 none (.ok []) or0).retVal = none ∧
    (enrich_task_descriptions a0 d0 none (.ok []) or0).results =
      some ⟨0, 0, 0, 0⟩ := ⟨rfl, rfl⟩

/-- C3 amended: the enrichment operation aggregates the counts
processed, updated, skipped and failed for the batch (they appear in
its printed summary), but returns `None` to its caller in every case. -/
theorem c3_amended (asst today : List Char) (limit : Option Nat)
    (tasks : List ATask) (oracle : Nat → EnrichOracle) (e : ExtErr) :
    (enrich_task_descriptions asst today limit (.ok tasks) oracle).retVal = none ∧
    (enrich_task_descriptions asst today limit (.error e) oracle).retVal = none ∧
    (enrich_task_descriptions asst today limit (.ok tasks) oracle).results =
      some ⟨(enrich_task_descriptions asst today limit (.ok tasks) oracle).steps.countP
              (fun p => isStepUpdated p.2 || isStepHttp p.2),
            (enrich_task_descriptions asst today limit (.ok tasks) oracle).steps.countP
              (fun p => isStepUpdated p.2),
            (enrich_task_descriptions asst today limit (.ok tasks) oracle).steps.countP
              (fun p => isStepSkipped p.2),
            (enrich_task_descriptions asst today limit (.ok tasks) oracle).steps.countP
              (fun p => isStepHttp p.2 || isStepExn p.2)⟩ := by
  refine ⟨rfl, rfl, ?_⟩
  simp only [enrich_task_descriptions]
  rw [tally_foldl]
  simp

/-! ### C4 — the limit: a zero limit is falsy and selects everything -/

/-- C4 counterexample: with limit 0 and one incomplete task the
enrichment loop still processes that task (`if limit:` is false for 0,
so no truncation happens), violating "at most `limit` tasks". -/
theorem c4_counterexample :
    (enrich_task_descriptions a0 d0 (some 0) (.ok [t0]) or0).steps.length = 1 ∧
    ¬((enrich_task_descriptions a0 d0 (some 0) (.ok [t0]) or0).steps.length ≤ 0) :=
  ⟨rfl, by decide⟩

/-- C4 amended: with the limit unset, or set to the (falsy) value 0,
enrichment processes exactly the incomplete tasks in fetched order;
with a positive limit `n` it processes the first `n` of them, hence at
most `n` tasks. -/
theorem c4_amended (asst today : List Char) (tasks : List ATask)
    (oracle : Nat → EnrichOracle) (n : Nat) :
    (enrich_task_descriptions asst today none (.ok tasks) oracle).steps.map Prod.fst =
        tasks.filter (fun t => !t.completed) ∧
    (enrich_task_descriptions asst today (some n) (.ok tasks) oracle).steps.map Prod.fst =
        (if n = 0 then tasks.filter (fun t => !t.completed)
         else (tasks.filter (fun t => !t.completed)).take n) ∧
    (enrich_task_descriptions asst today (some n) (.ok tasks) oracle).steps.length ≤
        (if n = 0 then (tasks.filter (fun t => !t.completed)).length else n) := by
  refine ⟨?_, ?_, ?_⟩
  · simp only [enrich_task_descriptions]
    rw [steps_map_fst]
    rfl
  · simp only [enrich_task_descriptions]
    rw [steps_map_fst]
    simp [enrichSelect]
  · simp only [enrich_task_descriptions, List.length_map, List.enum_length]
    by_cases h0 : n = 0 <;> simp [enrichSelect, h0, List.length_take]

/-! ### C5 — the skip path for already-enriched tasks -/

/-- C5: a task whose existing notes exceed 200 characters and contain
the enrichment marker takes the skip path: the loop body yields
`skipped` (whatever the provider oracle would answer) and issues no
patch call, leaving the notes unmodified. -/
theorem c5_skip_path (asst today : List Char) (t : ATask) (o : EnrichOracle)
    (h1 : 200 < t.notes.length)
    (h2 : containsStr descMarker t.notes = true) :
    processTask asst today t o = TaskStep.skipped ∧
    tallyStep r0 (processTask asst today t o) = ⟨0, 0, 1, 0⟩ ∧
    stepUpdate t (processTask asst today t o) = [] := by
  have hs : skipCond t = true := by simp [skipCond, h1, h2]
  refine ⟨?_, ?_, ?_⟩ <;> simp [processTask, hs, tallyStep, stepUpdate, r0]

set_option maxRecDepth 4000 in
/-- C5 witness: a concrete 201-character notes field containing the
marker is skipped. -/
theorem c5_witness :
    processTask a0 d0 tSkip o429 = TaskStep.skipped ∧
    tallyStep r0 (processTask a0 d0 tSkip o429) = ⟨0, 0, 1, 0⟩ ∧
    stepUpdate tSkip (processTask a0 d0 tSkip o429) = [] :=
  c5_skip_path a0 d0 tSkip o429 (by decide) (by decide)

/-! ### C7 — provider failures become no-result signals -/

/-- C7: a non-200 provider response (and likewise a transport
exception) makes the advisory query return `None` without raising, and
inside the enrichment batch a non-200 response on a non-skipped task
yields the `httpFailed` step, which bumps the failed counter and issues
no patch call. -/
theorem c7_provider_failure (status : Nat) (content : List Char)
    (asst today : List Char) (t : ATask) (o : EnrichOracle) (r : EnrichResults)
    (hs : status ≠ 200) (hskip : skipCond t = false)
    (ho : o.llm = CallResult.response status content) :
    ask_question (.response status content) = none ∧
    ask_question .exn = none ∧
    processTask asst today t o = TaskStep.httpFailed status ∧
    (tallyStep r (TaskStep.httpFailed status)).failed = r.failed + 1 ∧
    stepUpdate t (TaskStep.httpFailed status) = [] := by
  refine ⟨?_, rfl, ?_, rfl, rfl⟩
  · simp [ask_question, hs]
  · simp [processTask, hskip, ho, hs]

/-- C7 witness: the concrete status 429. -/
theorem c7_witness :
    ask_question (.response 429 "quota".toList) = none ∧
    ask_question .exn = none ∧
    processTask a0 d0 t429 o429 = TaskStep.httpFailed 429 ∧
    (tallyStep r0 (TaskStep.httpFailed 429)).failed = r0.failed + 1 ∧
    stepUpdate t429 (TaskStep.httpFailed 429) = [] :=
  c7_provider_failure 429 "quota".toList a0 d0 t429 o429 r0
    (by decide) (by decide) rfl

/-! ### C8 — bulk reassignment with an unresolvable assignee -/

/-- C8: when no user's lowercase name contains the lowercase assignee
string, bulk reassignment returns the all-zero result and issues no
patch calls. -/
theorem c8_no_matching_user (users : List User) (tasks : List ATask)
    (assignee : List Char) (due : Option (List Char))
    (patchRes : Nat → Option (List Char))
    (h : ∀ u ∈ users, containsStr (toLowerStr assignee) (toLowerStr u.name) = false) :
    bulk_assign_tasks (.ok users) tasks assignee due patchRes =
      .ok (⟨0, 0, []⟩, []) := by
  have hf : findAssignee users assignee = none := by
    induction users with
    | nil => rfl
    | cons u rest ih =>
      simp only [findAssignee, h u (List.mem_cons_self u rest)]
      exact ih (fun v hv => h v (List.mem_cons_of_mem u hv))
  simp [bulk_assign_tasks, bulkCore, hf]

/-- C8 witness: the assignee "bob" matches no user named "Alice". -/
theorem c8_witness :
    bulk_assign_tasks (.ok usersA) [t0] "bob".toList none patch0 =
      .ok (⟨0, 0, []⟩, []) :=
  c8_no_matching_user usersA [t0] "bob".toList none patch0 (by decide)

/-! ### C9 — error conversion at call sites, except the user-list fetch -/

/-- C9 counterexample: an error raised by the bulk reassignment
component's user-list fetch is not converted into a no-result signal —
it propagates to the caller. -/
theorem c9_counterexample :
    bulk_assign_tasks (.error ExtErr.network) [] "bob".toList none patch0 =
      .error ExtErr.network := rfl

/-- C9 amended: external-call errors in the upcoming-tasks query, the
status aggregation, the enrichment batch and the advisory query are
caught at the call site and converted into the component's no-result
value; the bulk reassignment component's user-list fetch, however, is
not guarded, and its error propagates to the caller. -/
theorem c9_amended (e : ExtErr) (phases : List (List Char × PhaseRecord))
    (today asst tday : List Char) (limit : Option Nat)
    (oracle : Nat → EnrichOracle) (tasks : List ATask) (assignee : List Char)
    (due : Option (List Char)) (patchRes : Nat → Option (List Char)) :
    get_upcoming_tasks (.error e) = [] ∧
    get_task_status phases today (.error e) = none ∧
    (enrich_task_descriptions asst tday limit (.error e) oracle).retVal = none ∧
    ask_question .exn = none ∧
    bulk_assign_tasks (.error e) tasks assignee due patchRes = .error e :=
  ⟨rfl, rfl, rfl, rfl, rfl⟩

/-! ### Dictionary lemmas -/

/-- Lookup after a dict assignment: the inserted key now maps to the
new value; other keys are unaffected. -/
theorem alookup_dictInsert {α : Type} (k1 k2 : List Char) (v : α)
    (l : List (List Char × α)) :
    alookup k2 (dictInsert k1 v l) = if k1 = k2 then some v else alookup k2 l := by
  induction l with
  | nil => by_cases h : k1 = k2 <;> simp [dictInsert, alookup, h]
  | cons p rest ih =>
    obtain ⟨ke, ve⟩ := p
    by_cases he : ke = k1 <;> by_cases h12 : k1 = k2 <;> by_cases hke : ke = k2 <;>
      simp_all [dictInsert, alookup]

/-- Keys after a dict assignment: unchanged if the key was present,
else the key is appended. -/
theorem mapFst_dictInsert {α : Type} (k : List Char) (v : α)
    (l : List (List Char × α)) :
    (dictInsert k v l).map Prod.fst =
      if k ∈ l.map Prod.fst then l.map Prod.fst else l.map Prod.fst ++ [k] := by
  induction l with
  | nil => simp [dictInsert]
  | cons p rest ih =>
    obtain ⟨ke, ve⟩ := p
    simp only [dictInsert]
    by_cases he : ke = k
    · subst he
      rw [if_pos rfl]
      have hm : ke ∈ List.map Prod.fst ((ke, ve) :: rest) := by
        rw [List.map_cons]
        exact List.mem_cons_self _ _
      rw [if_pos hm, List.map_cons, List.map_cons]
    · rw [if_neg he, List.map_cons, List.map_cons, ih]
      have hmem : (k ∈ ke :: rest.map Prod.fst) ↔ k ∈ rest.map Prod.fst := by
        rw [List.mem_cons]
        constructor
        · rintro (rfl | hx)
          · exact absurd rfl he
          · exact hx
        · exact Or.inr
      by_cases hk : k ∈ rest.map Prod.fst
      · rw [if_pos hk, if_pos (hmem.mpr hk)]
      · rw [if_neg hk, if_neg (fun hx => hk (hmem.mp hx)), List.cons_append]

/-- Key membership after a dict assignment. -/
theorem mem_mapFst_dictInsert {α : Type} (k k1 : List Char) (v : α)
    (l : List (List Char × α)) :
    k ∈ (dictInsert k1 v l).map Prod.fst ↔ k ∈ l.map Prod.fst ∨ k = k1 := by
  rw [mapFst_dictInsert]
  by_cases h : k1 ∈ l.map Prod.fst
  · rw [if_pos h]
    constructor
    · exact Or.inl
    · rintro (hk | rfl)
      · exact hk
      · exact h
  · rw [if_neg h, List.mem_append, List.mem_singleton]

/-- Dict assignment preserves key distinctness. -/
theorem nodup_mapFst_dictInsert {α : Type} (k : List Char) (v : α)
    (l : List (List Char × α)) (h : (l.map Prod.fst).Nodup) :
    ((dictInsert k v l).map Prod.fst).Nodup := by
  rw [mapFst_dictInsert]
  by_cases hk : k ∈ l.map Prod.fst
  · rw [if_pos hk]
    exact h
  · rw [if_neg hk, List.nodup_append]
    refine ⟨h, List.nodup_singleton k, fun a ha hb => ?_⟩
    rw [List.mem_singleton] at hb
    subst hb
    exact hk ha

/-- With distinct keys, association-list membership determines lookup. -/
theorem alookup_of_mem_nodup {α : Type} (l : List (List Char × α))
    (k : List Char) (r : α) (hn : (l.map Prod.fst).Nodup) (hm : (k, r) ∈ l) :
    alookup k l = some r := by
  induction l with
  | nil => cases hm
  | cons p rest ih =>
    obtain ⟨ke, ve⟩ := p
    rcases List.mem_cons.mp hm with heq | hmem
    · obtain ⟨h1, h2⟩ := Prod.mk.injEq .. ▸ heq.symm
      simp [alookup, h1, h2]
    · have hne : ke ≠ k := by
        intro he
        subst he
        exact (List.nodup_cons.mp hn).1 (List.mem_map.mpr ⟨(ke, r), hmem, rfl⟩)
      simpa [alookup, hne] using ih (List.nodup_cons.mp hn).2 hmem

/-! ### Phase-dict fold characterization -/

/-- Splitting the last match for `k` off a cons cell. -/
theorem lastFor_cons (k : List Char) (m : List Char × List Char × List Char)
    (ms : List (List Char × List Char × List Char)) :
    lastFor k (m :: ms) =
      (lastFor k ms).or (if m.1 = k then some m else none) := by
  by_cases hk : m.1 = k <;>
    simp [lastFor, List.reverse_cons, List.find?_append, hk]

/-- Lookup in the folded phase dict: the record of the last match with
the queried number, else whatever the accumulator held. -/
theorem buildPhases_foldl_alookup (ms : List (List Char × List Char × List Char))
    (acc : List (List Char × PhaseRecord)) (k : List Char) :
    alookup k (ms.foldl (fun acc m => dictInsert m.1 (mkPhaseRecord m.2.1 m.2.2) acc) acc) =
      (match lastFor k ms with
       | some m => some (mkPhaseRecord m.2.1 m.2.2)
       | none => alookup k acc) := by
  induction ms generalizing acc with
  | nil => simp [lastFor]
  | cons m rest ih =>
    rw [List.foldl_cons, ih, lastFor_cons]
    cases hrest : lastFor k rest with
    | some m' => simp
    | none =>
      simp only [Option.none_or]
      by_cases hk : m.1 = k <;> simp [hk, alookup_dictInsert]

/-- Key membership in the folded phase dict. -/
theorem buildPhases_foldl_keys (ms : List (List Char × List Char × List Char))
    (acc : List (List Char × PhaseRecord)) (k : List Char) :
    k ∈ (ms.foldl (fun acc m => dictInsert m.1 (mkPhaseRecord m.2.1 m.2.2) acc) acc).map Prod.fst
      ↔ k ∈ acc.map Prod.fst ∨ k ∈ ms.map (fun m => m.1) := by
  induction ms generalizing acc with
  | nil =>
    simp only [List.foldl_nil, List.map_nil, List.not_mem_nil, or_false]
  | cons m rest ih =>
    rw [List.foldl_cons, ih]
    rw [mem_mapFst_dictInsert]
    simp only [List.map_cons, List.mem_cons]
    tauto

/-- Key distinctness of the folded phase dict. -/
theorem buildPhases_foldl_nodup (ms : List (List Char × List Char × List Char))
    (acc : List (List Char × PhaseRecord)) (h : (acc.map Prod.fst).Nodup) :
    ((ms.foldl (fun acc m => dictInsert m.1 (mkPhaseRecord m.2.1 m.2.2) acc) acc).map
        Prod.fst).Nodup := by
  induction ms generalizing acc with
  | nil => exact h
  | cons m rest ih =>
    rw [List.foldl_cons]
    exact ih _ (nodup_mapFst_dictInsert _ _ _ h)

/-! ### C2 — the phase parser -/

/-- C2: the parsed phase mapping has exactly one record per distinct
captured phase number (its keys are distinct and are exactly the
captured numbers), each record carries the display name
`<name> (<timeline>)` of the last heading with that number together
with empty description, key-activities and deliverables lists, and a
blob without matches yields an empty mapping. -/
theorem c2_phase_records (blob : List Char) :
    ((IMPLEMENTATION_PHASES blob).map Prod.fst).Nodup ∧
    (∀ k, k ∈ (IMPLEMENTATION_PHASES blob).map Prod.fst ↔
        k ∈ (findallPhases blob).map (fun m => m.1)) ∧
    (∀ k r, (k, r) ∈ IMPLEMENTATION_PHASES blob →
        ∃ m, lastFor k (findallPhases blob) = some m ∧ m.1 = k ∧
          r.name = m.2.1 ++ " (".toList ++ m.2.2 ++ [')'] ∧
          r.description = [] ∧ r.key_activities = [] ∧ r.deliverables = []) ∧
    (findallPhases blob = [] → IMPLEMENTATION_PHASES blob = []) := by
  have hnodup : ((IMPLEMENTATION_PHASES blob).map Prod.fst).Nodup :=
    buildPhases_foldl_nodup (findallPhases blob) []
      (by simp only [List.map_nil, List.nodup_nil])
  refine ⟨hnodup, ?_, ?_, ?_⟩
  · intro k
    have h := buildPhases_foldl_keys (findallPhases blob) [] k
    simp only [List.map_nil, List.not_mem_nil, false_or] at h
    exact h
  · intro k r hm
    have hl : alookup k (IMPLEMENTATION_PHASES blob) = some r :=
      alookup_of_mem_nodup _ _ _ hnodup hm
    rw [IMPLEMENTATION_PHASES, buildPhases, buildPhases_foldl_alookup] at hl
    cases hf : lastFor k (findallPhases blob) with
    | none => rw [hf] at hl; simp [alookup] at hl
    | some m =>
      rw [hf] at hl
      simp only [Option.some.injEq] at hl
      have hk : m.1 = k := by
        have hp := List.find?_some hf
        exact of_decide_eq_true hp
      exact ⟨m, rfl, hk, by simp [← hl, mkPhaseRecord, phaseName],
        by simp [← hl, mkPhaseRecord], by simp [← hl, mkPhaseRecord],
        by simp [← hl, mkPhaseRecord]⟩
  · intro h
    simp [IMPLEMENTATION_PHASES, buildPhases, h]

set_option maxRecDepth 10000 in
/-- C2 witness: in a blob with headings for phases 1, 2 and again 1,
the record keyed "1" is that of the later heading, with the composed
display name and empty lists. -/
theorem c2_witness :
    ∃ m, lastFor "1".toList (findallPhases blob2) = some m ∧ m.1 = "1".toList ∧
      rec1.name = m.2.1 ++ " (".toList ++ m.2.2 ++ [')'] ∧
      rec1.description = [] ∧ rec1.key_activities = [] ∧ rec1.deliverables = [] :=
  (c2_phase_records blob2).2.2.1 "1".toList rec1 (by decide)

/-! ### Bucketing-fold characterization -/

/-- Counting a conjunction of predicates is bounded by counting the
first one. -/
theorem countP_and_le {α : Type} (l : List α) (p q : α → Bool) :
    l.countP (fun a => p a && q a) ≤ l.countP p := by
  induction l with
  | nil => simp
  | cons a t ih =>
    simp only [List.countP_cons]
    cases hp : p a <;> cases hq : q a <;> simp [hp, hq] <;> omega

/-- Lookup in the folded phase buckets: tasks whose first matching
phase is `k` contribute one to the bucket's total and, when completed,
one to its completed count, on top of whatever the accumulator held. -/
theorem bucket_foldl_alookup (keys : List (List Char)) (tasks : List ATask)
    (acc : List (List Char × Bucket0)) (k : List Char) :
    alookup k (tasks.foldl (bucketStep keys) acc) =
      if specPhaseTotal keys k tasks = 0 then alookup k acc
      else some ⟨((alookup k acc).getD ⟨0, 0⟩).total + specPhaseTotal keys k tasks,
                 ((alookup k acc).getD ⟨0, 0⟩).completed
                   + specPhaseCompleted keys k tasks⟩ := by
  induction tasks generalizing acc with
  | nil => simp [specPhaseTotal, specPhaseCompleted]
  | cons t ts ih =>
    rw [List.foldl_cons, ih]
    rcases h : taskPhase keys t.name with _ | k'
    · have ht : specPhaseTotal keys k (t :: ts) = specPhaseTotal keys k ts := by
        simp [specPhaseTotal, List.countP_cons, h]
      have hc : specPhaseCompleted keys k (t :: ts) = specPhaseCompleted keys k ts := by
        simp [specPhaseCompleted, List.countP_cons, h]
      have hacc : alookup k (bucketStep keys acc t) = alookup k acc := by
        simp [bucketStep, h]
      rw [ht, hc, hacc]
    · by_cases hk : k' = k
      · rw [hk] at h
        have ht : specPhaseTotal keys k (t :: ts) = specPhaseTotal keys k ts + 1 := by
          simp [specPhaseTotal, List.countP_cons, h]
        have hc : specPhaseCompleted keys k (t :: ts) =
            specPhaseCompleted keys k ts + (if t.completed then 1 else 0) := by
          simp only [specPhaseCompleted, List.countP_cons, h]
          cases t.completed <;> simp
        have hacc : alookup k (bucketStep keys acc t) =
            some ⟨((alookup k acc).getD ⟨0, 0⟩).total + 1,
                  ((alookup k acc).getD ⟨0, 0⟩).completed
                    + (if t.completed then 1 else 0)⟩ := by
          simp [bucketStep, h, alookup_dictInsert]
        rw [ht, hc, hacc]
        by_cases h0 : specPhaseTotal keys k ts = 0
        · have hc0 : specPhaseCompleted keys k ts = 0 :=
            Nat.le_zero.mp (h0 ▸ countP_and_le ts
              (fun t => decide (taskPhase keys t.name = some k)) (fun t => t.completed))
          rw [if_pos h0,
            if_neg (show ¬(specPhaseTotal keys k ts + 1 = 0) by omega), h0, hc0]
          simp only [Option.getD_some, Option.some.injEq, Bucket0.mk.injEq]
          cases t.completed <;> simp
        · rw [if_neg h0,
            if_neg (show ¬(specPhaseTotal keys k ts + 1 = 0) by omega)]
          simp only [Option.getD_some, Option.some.injEq, Bucket0.mk.injEq]
          cases t.completed <;> simp <;> omega
      · have ht : specPhaseTotal keys k (t :: ts) = specPhaseTotal keys k ts := by
          simp [specPhaseTotal, List.countP_cons, h, hk]
        have hc : specPhaseCompleted keys k (t :: ts) = specPhaseCompleted keys k ts := by
          simp [specPhaseCompleted, List.countP_cons, h, hk]
        have hacc : alookup k (bucketStep keys acc t) = alookup k acc := by
          simp [bucketStep, h, alookup_dictInsert, hk]
        rw [ht, hc, hacc]

/-- Lookup commutes with the percentage pass. -/
theorem alookup_addPct (bs : List (List Char × Bucket0)) (k : List Char) :
    alookup k (addPct bs) = (alookup k bs).map
      (fun b => ⟨b.total, b.completed,
        if b.total > 0 then round1 ((b.completed : ℚ) / b.total * 100) else 0⟩) := by
  induction bs with
  | nil => rfl
  | cons p rest ih =>
    obtain ⟨ke, ve⟩ := p
    have hstep : addPct ((ke, ve) :: rest) =
        (ke, ⟨ve.total, ve.completed,
          if ve.total > 0 then round1 ((ve.completed : ℚ) / ve.total * 100) else 0⟩)
          :: addPct rest := rfl
    rw [hstep]
    by_cases h : ke = k
    · simp [alookup, h]
    · simp [alookup, h, ih]

/-- Characterization of the phase buckets a successful status
aggregation reports: bucket `k` exists iff some task's first matching
phase is `k`, and then it carries exactly the first-match counts and
their percentage. -/
theorem status_phases_char (phases : List (List Char × PhaseRecord))
    (today : List Char) (tasks : List ATask) (st : TaskStatus)
    (h : get_task_status phases today (.ok tasks) = some st) (k : List Char) :
    alookup k st.phases =
      if specPhaseTotal (phases.map Prod.fst) k tasks = 0 then none
      else some (mkPB (specPhaseTotal (phases.map Prod.fst) k tasks)
                      (specPhaseCompleted (phases.map Prod.fst) k tasks)) := by
  simp only [get_task_status, Option.some.injEq] at h
  subst h
  show alookup k (addPct (bucketTasks (List.map Prod.fst phases) tasks)) = _
  rw [alookup_addPct]
  simp only [bucketTasks]
  rw [bucket_foldl_alookup]
  by_cases h0 : specPhaseTotal (phases.map Prod.fst) k tasks = 0
  · rw [if_pos h0, if_pos h0]
    rfl
  · rw [if_neg h0, if_neg h0]
    simp [alookup, mkPB]

/-! ### C6 — first-match phase bucketing -/

/-- C6: each task lands in at most one phase bucket — the first phase
key, in the phase mapping's iteration order, whose `PHASE <n>:` marker
occurs in the task name (that first match is what `taskPhase`, via
`List.find?`, computes inside `specPhaseTotal`/`specPhaseCompleted`);
the bucket's total counts exactly those tasks and its completed count
the completed ones among them, and a task matching no known phase
appears in no bucket. -/
theorem c6_first_match_bucketing (phases : List (List Char × PhaseRecord))
    (today : List Char) (tasks : List ATask) (st : TaskStatus)
    (h : get_task_status phases today (.ok tasks) = some st) (k : List Char) :
    alookup k st.phases =
      if specPhaseTotal (phases.map Prod.fst) k tasks = 0 then none
      else some (mkPB (specPhaseTotal (phases.map Prod.fst) k tasks)
                      (specPhaseCompleted (phases.map Prod.fst) k tasks)) :=
  status_phases_char phases today tasks st h k

set_option maxRecDepth 4000 in
/-- Concrete evaluation of the status aggregation on `tasks5` with the
phase table `phases2`. -/
theorem status_tasks5 : get_task_status phases2 d0 (.ok tasks5) = some st2 := by
  simp only [get_task_status, st2, Option.some.injEq, TaskStatus.mk.injEq]
  refine ⟨by decide, by decide, by decide, by decide, by decide, ?_, ?_⟩
  · have h1 : tasks5.countP (fun t => t.completed) = 3 := by decide
    have h2 : tasks5.length = 5 := by decide
    rw [h1, h2]
    norm_num [round1, round_eq]
  · have hb : bucketTasks (phases2.map Prod.fst) tasks5 = [("2".toList, ⟨5, 3⟩)] := by
      decide
    rw [hb]
    simp only [addPct, List.map_cons, List.map_nil]
    norm_num [round1, round_eq]

/-- C6 witness: with one phase key "2" and five `PHASE 2:` tasks of
which three are completed, the bucket reads 5 total, 3 completed,
percentage 60.0. -/
theorem c6_witness :
    alookup "2".toList st2.phases =
      (if specPhaseTotal (phases2.map Prod.fst) "2".toList tasks5 = 0 then none
       else some (mkPB (specPhaseTotal (phases2.map Prod.fst) "2".toList tasks5)
                       (specPhaseCompleted (phases2.map Prod.fst) "2".toList tasks5))) ∧
    alookup "2".toList st2.phases = some ⟨5, 3, 60⟩ :=
  ⟨c6_first_match_bucketing phases2 d0 tasks5 st2 status_tasks5 "2".toList, by decide⟩

/-! ### C10 — per-bucket invariants -/

/-- Rounding to one decimal is monotone. -/
theorem round_mono' {x y : ℚ} (h : x ≤ y) : round x ≤ round y := by
  rw [round_eq, round_eq]
  exact Int.floor_mono (by linarith)

/-- A nonnegative value rounds to a nonnegative value. -/
theorem round1_nonneg {q : ℚ} (h : 0 ≤ q) : 0 ≤ round1 q := by
  have h1 : (0 : ℤ) ≤ round (q * 10) := by
    have h2 := round_mono' (show (0 : ℚ) ≤ q * 10 by nlinarith)
    simpa using h2
  unfold round1
  apply div_nonneg
  · exact_mod_cast h1
  · norm_num

/-- A value at most 100 rounds to at most 100. -/
theorem round1_le_100 {q : ℚ} (h : q ≤ 100) : round1 q ≤ 100 := by
  have h3 : round ((1000 : ℚ)) = 1000 := by
    rw [show ((1000 : ℚ)) = ((1000 : ℤ) : ℚ) by norm_num, round_intCast]
  have h1 : round (q * 10) ≤ 1000 := by
    have h2 := round_mono' (show q * 10 ≤ (1000 : ℚ) by linarith)
    rw [h3] at h2
    exact h2
  unfold round1
  rw [div_le_iff₀ (by norm_num : (0 : ℚ) < 10)]
  calc ((round (q * 10) : ℤ) : ℚ) ≤ ((1000 : ℤ) : ℚ) := by exact_mod_cast h1
    _ = 100 * 10 := by norm_num

/-- C10: every phase bucket present in a successful status aggregation
has total at least 1 and completed at most total, and its percentage
lies between 0.0 and 100.0 inclusive. -/
theorem c10_bucket_invariants (phases : List (List Char × PhaseRecord))
    (today : List Char) (tasks : List ATask) (st : TaskStatus)
    (h : get_task_status phases today (.ok tasks) = some st)
    (k : List Char) (b : PhaseBucket)
    (hb : alookup k st.phases = some b) :
    1 ≤ b.total ∧ b.completed ≤ b.total ∧ 0 ≤ b.percentage ∧ b.percentage ≤ 100 := by
  have hc := status_phases_char phases today tasks st h k
  rw [hb] at hc
  by_cases h0 : specPhaseTotal (phases.map Prod.fst) k tasks = 0
  · rw [if_pos h0] at hc
    exact absurd hc (Option.some_ne_none b)
  · rw [if_neg h0] at hc
    have hbe : b = mkPB (specPhaseTotal (phases.map Prod.fst) k tasks)
        (specPhaseCompleted (phases.map Prod.fst) k tasks) := Option.some.inj hc
    have hcle : specPhaseCompleted (phases.map Prod.fst) k tasks ≤
        specPhaseTotal (phases.map Prod.fst) k tasks :=
      countP_and_le tasks
        (fun t => decide (taskPhase (phases.map Prod.fst) t.name = some k))
        (fun t => t.completed)
    have hTpos : 0 < specPhaseTotal (phases.map Prod.fst) k tasks :=
      Nat.pos_of_ne_zero h0
    subst hbe
    refine ⟨hTpos, hcle, ?_, ?_⟩
    · simp only [mkPB]
      rw [if_pos hTpos]
      apply round1_nonneg
      positivity
    · simp only [mkPB]
      rw [if_pos hTpos]
      apply round1_le_100
      have hT : (0 : ℚ) < (specPhaseTotal (phases.map Prod.fst) k tasks : ℚ) := by
        exact_mod_cast hTpos
      have hdiv : ((specPhaseCompleted (phases.map Prod.fst) k tasks : ℚ) /
          (specPhaseTotal (phases.map Prod.fst) k tasks : ℚ)) ≤ 1 := by
        rw [div_le_one hT]
        exact_mod_cast hcle
      nlinarith

/-- C10 witness: the concrete bucket of `tasks5` satisfies the
invariants. -/
theorem c10_witness :
    1 ≤ (PhaseBucket.mk 5 3 60).total ∧
    (PhaseBucket.mk 5 3 60).completed ≤ (PhaseBucket.mk 5 3 60).total ∧
    0 ≤ (PhaseBucket.mk 5 3 60).percentage ∧
    (PhaseBucket.mk 5 3 60).percentage ≤ 100 :=
  c10_bucket_invariants phases2 d0 tasks5 st2 status_tasks5 "2".toList
    ⟨5, 3, 60⟩ (by decide)
